import Mathlib

/-!
Verification of the text-processing operation dispatcher found in this
repository's two scripted action lineages:

* the JavaScript action (`action-javascript/index.js`), whose `run`
  function dispatches on `operation-type` over `analyzeText`,
  `transformText` and `validateText`, defaulting to `analyzeText` with a
  warning for an unknown operation, and
* the Docker action entrypoint shell script, whose
  `case "$PROCESS_TYPE"` dispatches over `echo`, `reverse`, `count`,
  `uppercase` and `lowercase`, defaulting to `echo` with a warning.

Modelling conventions:

* A JavaScript string is a sequence of UTF-16 code units; we embed it as
  `List Nat` (each element a code unit).  `String.prototype.length`,
  `charAt`, `split('')` and friends all operate at code-unit
  granularity, and the embedding keeps that granularity.
* JavaScript's `toLowerCase`/`toUpperCase` perform Unicode simple case
  mapping; every string the scripts compare against is ASCII, and the
  embedding models the ASCII fragment of the mapping (non-ASCII units
  are left unchanged, as they are by the mapping on all characters that
  appear in the claims).
* The shell message is likewise a `List Nat` of characters.  `bash`'s
  `echo` builtin (no `xpg_echo`, not POSIX mode) consumes a sole
  argument consisting of `-` followed by letters from `neE`, and
  otherwise prints the argument followed by a newline; command
  substitution `$(...)` strips all trailing newlines.  Both behaviours
  are modelled explicitly.
* JavaScript number arithmetic in `analyzeText` (a sum of natural word
  lengths divided by a natural count, then `toFixed(2)`) is modelled
  exactly over `ℚ`; `toFixed(2)` picks the integer `n` minimising
  `|n / 100 - x|`, ties towards the larger `n`, which for the
  non-negative values arising here is `⌊100 x + 1/2⌋`.
-/

namespace Verification

/-- A JavaScript string: the list of its UTF-16 code units. -/
abbrev JSString := List Nat

/-- ASCII lower-casing of one code unit (`A`–`Z` map to `a`–`z`). -/
def asciiToLower (u : Nat) : Nat :=
  if 65 ≤ u ∧ u ≤ 90 then u + 32 else u

/-- ASCII upper-casing of one code unit (`a`–`z` map to `A`–`Z`). -/
def asciiToUpper (u : Nat) : Nat :=
  if 97 ≤ u ∧ u ≤ 122 then u - 32 else u

/-- The regex class `[a-zA-Z]` from `validateText`. -/
def isAsciiAlpha (u : Nat) : Bool :=
  (65 ≤ u && u ≤ 90) || (97 ≤ u && u ≤ 122)

/-- The JavaScript regex class `\s`. -/
def isJsWhitespace (u : Nat) : Bool :=
  u = 9 || u = 10 || u = 11 || u = 12 || u = 13 || u = 32 ||
  u = 160 || u = 5760 || (8192 ≤ u && u ≤ 8202) ||
  u = 8232 || u = 8233 || u = 8239 || u = 8287 || u = 12288 || u = 65279

/-- Blank characters for `wc -w` / `isspace` in the C locale. -/
def isShWhitespace (u : Nat) : Bool :=
  u = 32 || u = 9 || u = 10 || u = 11 || u = 12 || u = 13

/-- UTF-16 encoding of one Unicode code point. -/
def utf16EncodeCp (c : Nat) : List Nat :=
  if c < 65536 then [c]
  else [55296 + (c - 65536) / 1024, 56320 + (c - 65536) % 1024]

/-- UTF-16 encoding of a sequence of code points. -/
def utf16Encode (cs : List Nat) : List Nat :=
  (cs.map utf16EncodeCp).flatten

/-- Embed a Lean string literal as a JavaScript string (UTF-16 units). -/
def jsStr (s : String) : JSString :=
  utf16Encode (s.data.map Char.toNat)

/-- Is the code unit a UTF-16 high surrogate? -/
def isHighSurrogate (u : Nat) : Bool := 55296 ≤ u && u ≤ 56319

/-- Is the code unit a UTF-16 low surrogate? -/
def isLowSurrogate (u : Nat) : Bool := 56320 ≤ u && u ≤ 57343

/-- UTF-16 decoding: code units to code points.  A well-formed surrogate
pair becomes one astral code point; a lone surrogate stays itself. -/
def utf16Decode : List Nat → List Nat
  | [] => []
  | [u] => [u]
  | u :: v :: rest =>
    if isHighSurrogate u && isLowSurrogate v then
      (65536 + (u - 55296) * 1024 + (v - 56320)) :: utf16Decode rest
    else
      u :: utf16Decode (v :: rest)

/-- Splitting auxiliary: returns the piece before the first separator
occurrence together with the remaining pieces, scanning by a predicate.
`splitByAux p l = (head piece, later pieces)`. -/
def splitByAux (p : Nat → Bool) : List Nat → List Nat × List (List Nat)
  | [] => ([], [])
  | u :: rest =>
    let r := splitByAux p rest
    if p u then ([], r.1 :: r.2) else (u :: r.1, r.2)

/-- Split a list at every element satisfying `p`, dropping the
separators and keeping (possibly empty) pieces: the behaviour of
JavaScript's `String.prototype.split` with a single-character separator
class.  The result is always non-empty. -/
def splitBy (p : Nat → Bool) (l : List Nat) : List (List Nat) :=
  (splitByAux p l).1 :: (splitByAux p l).2

/-- Split at every occurrence of one code unit (JavaScript
`split('\n')`, `split(' ')`). -/
def splitOnSep (sep : Nat) (l : List Nat) : List (List Nat) :=
  splitBy (fun u => u == sep) l

/-- Join pieces with a separator list between consecutive pieces
(JavaScript `Array.prototype.join`). -/
def joinWith (sep : List Nat) : List (List Nat) → List Nat
  | [] => []
  | [p] => p
  | p :: q :: ps => p ++ sep ++ joinWith sep (q :: ps)

/-- `text.split(/\s+/).filter(word => word.length > 0)`: splitting on
single whitespace units and discarding empty pieces yields exactly the
maximal whitespace-free runs, which is what splitting on whitespace
*runs* followed by the same filter yields. -/
def jsWords (text : JSString) : List JSString :=
  (splitBy isJsWhitespace text).filter (fun w => w ≠ [])

/-- `toLowerCase` (ASCII fragment of the simple case mapping). -/
def jsToLowerCase (s : JSString) : JSString := s.map asciiToLower

/-- `toUpperCase` (ASCII fragment of the simple case mapping). -/
def jsToUpperCase (s : JSString) : JSString := s.map asciiToUpper

/-- `toFixed(2)` on a non-negative number, exactly over `ℚ`:
the multiple of `1/100` nearest to `q`, ties rounded up — that is,
`⌊100 q + 1/2⌋ / 100`, written through `num`/`den` so that it evaluates
by kernel reduction. -/
def jsToFixed2 (q : ℚ) : ℚ :=
  (((q * 100 + 1 / 2).num / ((q * 100 + 1 / 2).den : ℤ) : ℤ) : ℚ) / 100

/-- Result record of `analyzeText`.  `avgWordLength` is a JavaScript
number (a two-decimal string in the source is modelled by its numeric
value over `ℚ`). -/
structure AnalyzeResult where
  charCount : Nat
  wordCount : Nat
  lineCount : Nat
  uniqueWords : Nat
  avgWordLength : ℚ
deriving DecidableEq

/-- `analyzeText` from `action-javascript/index.js`:
counts characters, words, `'\n'`-separated lines, case-insensitively
distinct words, and the mean word length via `toFixed(2)`. -/
def analyzeText (text : JSString) : AnalyzeResult :=
  let lines := splitOnSep 10 text
  let words := jsWords text
  { charCount := text.length
    wordCount := words.length
    lineCount := lines.length
    uniqueWords := ((words.map jsToLowerCase).dedup).length
    avgWordLength :=
      if 0 < words.length then
        jsToFixed2 (((words.map List.length).sum : ℚ) / (words.length : ℚ))
      else 0 }

/-- `word.charAt(0).toUpperCase() + word.slice(1).toLowerCase()`. -/
def capitalizeWord (w : JSString) : JSString :=
  jsToUpperCase (w.take 1) ++ jsToLowerCase (w.drop 1)

/-- Result record of `transformText`. -/
structure TransformResult where
  uppercase : JSString
  lowercase : JSString
  reversed : JSString
  capitalized : JSString
deriving DecidableEq

/-- `transformText` from `action-javascript/index.js`.
`reversed` comes from `split('')`, `reverse()` and joining on the empty
string — `split('')` yields the list of single code units, so the
reversal is at UTF-16 code-unit granularity.  `capitalized` splits on
`' '`, maps `capitalizeWord` and joins on `' '` — it splits on the space
character only. -/
def transformText (text : JSString) : TransformResult :=
  { uppercase := jsToUpperCase text
    lowercase := jsToLowerCase text
    reversed := ((text.map (fun u => [u])).reverse).flatten
    capitalized := joinWith [32] ((splitOnSep 32 text).map capitalizeWord) }

/-- Result record of `validateText`. -/
structure ValidateResult where
  isValid : Bool
  issues : List JSString
  textLength : Nat
deriving DecidableEq

/-- Issue message pushed when the text is empty. -/
def msgEmpty : JSString := jsStr ("Text is empty")

/-- Issue message pushed when the text exceeds 1000 units. -/
def msgTooLong : JSString := jsStr ("Text is too long (>1000 chars)")

/-- Issue message pushed when `/[a-zA-Z]/` does not match. -/
def msgNoAlpha : JSString := jsStr ("No alphabetic characters found")

/-- `validateText` from `action-javascript/index.js`: pushes the three
issue messages under their respective conditions; valid iff no issue. -/
def validateText (text : JSString) : ValidateResult :=
  let issues : List JSString :=
    (if text.length = 0 then [msgEmpty] else []) ++
    (if 1000 < text.length then [msgTooLong] else []) ++
    (if !(text.any isAsciiAlpha) then [msgNoAlpha] else [])
  { isValid := issues.length == 0
    issues := issues
    textLength := text.length }

/-- The tagged result of one JavaScript dispatch. -/
inductive JsOperationResult where
  | analysis : AnalyzeResult → JsOperationResult
  | transformation : TransformResult → JsOperationResult
  | validation : ValidateResult → JsOperationResult
deriving DecidableEq

/-- What the JavaScript dispatch produces: the operation result and
whether the `core.warning` branch for an unknown operation ran. -/
structure JsDispatchOutput where
  result : JsOperationResult
  warned : Bool
deriving DecidableEq

/-- The dispatch section of `run` in `action-javascript/index.js`:
`switch (operationType.toLowerCase())` over `'analyze'`, `'transform'`,
`'validate'`, with the `default:` branch warning and running
`analyzeText`. -/
def jsDispatch (text operation : JSString) : JsDispatchOutput :=
  if jsToLowerCase operation = jsStr ("analyze") then
    ⟨.analysis (analyzeText text), false⟩
  else if jsToLowerCase operation = jsStr ("transform") then
    ⟨.transformation (transformText text), false⟩
  else if jsToLowerCase operation = jsStr ("validate") then
    ⟨.validation (validateText text), false⟩
  else
    ⟨.analysis (analyzeText text), true⟩

/-! ### The Docker entrypoint lineage -/

/-- Does `bash`'s `echo` builtin treat this sole argument as an option
word?  That happens exactly when it is `-` followed by one or more
letters from `n`, `e`, `E`. -/
def isEchoOpt (m : List Nat) : Bool :=
  match m with
  | 45 :: rest => rest ≠ [] && rest.all (fun u => u = 110 || u = 101 || u = 69)
  | _ => false

/-- What `echo "$MESSAGE"` writes to its stdout: the message followed by
a newline, except that an option word is consumed (leaving a bare
newline, or nothing at all when the options include `n`). -/
def echoOut (m : List Nat) : List Nat :=
  if isEchoOpt m then (if 110 ∈ m then [] else [10]) else m ++ [10]

/-- Strip every trailing occurrence of `x`: what command substitution
`$(...)` does to trailing newlines. -/
def stripTrailing (x : Nat) (l : List Nat) : List Nat :=
  ((l.reverse).dropWhile (fun u => u == x)).reverse

/-- `RESULT=$(echo "$MESSAGE" | rev)`: `rev` reverses each
newline-terminated line in place, and the command substitution strips
trailing newlines. -/
def dockerRev (m : List Nat) : List Nat :=
  stripTrailing 10 (joinWith [10] ((splitOnSep 10 (echoOut m)).map List.reverse))

/-- `RESULT=$(echo "$MESSAGE" | tr '[:lower:]' '[:upper:]')` (the
POSIX classes denote ASCII in the container's C locale). -/
def dockerUpper (m : List Nat) : List Nat :=
  stripTrailing 10 ((echoOut m).map asciiToUpper)

/-- `RESULT=$(echo "$MESSAGE" | tr '[:upper:]' '[:lower:]')`. -/
def dockerLower (m : List Nat) : List Nat :=
  stripTrailing 10 ((echoOut m).map asciiToLower)

/-- Decimal ASCII rendering of a natural number. -/
def natAscii (n : Nat) : List Nat :=
  (Nat.toDigits 10 n).map Char.toNat

/-- The `count` arm: `CHAR_COUNT=${#MESSAGE}` (character count of the
variable itself) and `WORD_COUNT=$(echo "$MESSAGE" | wc -w | tr -d ' ')`
(blank-separated words of the echoed message), interpolated into
`"Characters: $CHAR_COUNT, Words: $WORD_COUNT"`. -/
def dockerCount (m : List Nat) : List Nat :=
  jsStr ("Characters: ") ++ natAscii m.length ++
  jsStr (", Words: ") ++
  natAscii (((splitBy isShWhitespace (echoOut m)).filter (fun w => w ≠ [])).length)

/-- What the Docker dispatch produces: `RESULT` and whether the
unknown-type warning branch ran. -/
structure DockerDispatchOutput where
  result : List Nat
  warned : Bool
deriving DecidableEq

/-- The `case "$PROCESS_TYPE" in … esac` block of the Docker entrypoint
script.  Shell `case` patterns match literally, so the comparison with
the known operation names is case-sensitive; the `*)` arm warns and
echoes the message unchanged. -/
def dockerDispatch (message ptype : List Nat) : DockerDispatchOutput :=
  if ptype = jsStr ("echo") then ⟨message, false⟩
  else if ptype = jsStr ("reverse") then ⟨dockerRev message, false⟩
  else if ptype = jsStr ("count") then ⟨dockerCount message, false⟩
  else if ptype = jsStr ("uppercase") then ⟨dockerUpper message, false⟩
  else if ptype = jsStr ("lowercase") then ⟨dockerLower message, false⟩
  else ⟨message, true⟩

/-- The operation names the Docker `case` statement recognises. -/
def dockerKnownOps : List (List Nat) :=
  [jsStr ("echo"), jsStr ("reverse"), jsStr ("count"),
   jsStr ("uppercase"), jsStr ("lowercase")]

/-- Per-line reversal without the echo/command-substitution plumbing:
what `rev` does to a complete text. -/
def revLines (m : List Nat) : List Nat :=
  joinWith [10] ((splitOnSep 10 m).map List.reverse)

/-- Modelled from the spec: "returns the text with character order
reversed (code-point granularity, not byte)" — decode the UTF-16 code
units to code points, reverse those, and re-encode.  This is the
comparison point for the refinement claim about `reversed`. -/
def codePointReverse (s : JSString) : JSString :=
  utf16Encode ((utf16Decode s).reverse)

/-- Modelled from the spec: "first letter of each whitespace-delimited
token capitalized, rest lowercased" — walk the string transforming each
maximal whitespace-free token in place (first unit upper-cased, rest
lower-cased) and leaving the whitespace itself unchanged.  The flag
records whether the next non-whitespace unit starts a token. -/
def specTitleCaseAux : Bool → List Nat → List Nat
  | _, [] => []
  | atStart, u :: rest =>
    if isJsWhitespace u then u :: specTitleCaseAux true rest
    else (if atStart then asciiToUpper u else asciiToLower u) ::
      specTitleCaseAux false rest

/-- Modelled from the spec (see `specTitleCaseAux`). -/
def specTitleCase (s : JSString) : JSString := specTitleCaseAux true s

/-- Character-level rendering of what `capitalized` computes: the same
walk as `specTitleCaseAux` but recognising only the space character as
a separator, matching `split(' ')`. -/
def codeTitleAux : Bool → List Nat → List Nat
  | _, [] => []
  | atStart, u :: rest =>
    if u = 32 then u :: codeTitleAux true rest
    else (if atStart then asciiToUpper u else asciiToLower u) ::
      codeTitleAux false rest

/-! ### Helper lemmas -/

theorem jsToFixed2_eq_floor (q : ℚ) :
    jsToFixed2 q = (⌊q * 100 + 1 / 2⌋ : ℚ) / 100 := by
  rw [jsToFixed2, Rat.floor_def]

theorem asciiToLower_idem (u : Nat) :
    asciiToLower (asciiToLower u) = asciiToLower u := by
  by_cases h : 65 ≤ u ∧ u ≤ 90
  · simp only [asciiToLower, if_pos h]
    rw [if_neg (by omega)]
  · simp only [asciiToLower, if_neg h]

theorem jsToLowerCase_idem (s : JSString) :
    jsToLowerCase (jsToLowerCase s) = jsToLowerCase s := by
  simp only [jsToLowerCase, List.map_map]
  exact List.map_congr_left fun u _ => asciiToLower_idem u

theorem reversed_eq_reverse (s : JSString) :
    (transformText s).reversed = s.reverse := by
  show ((s.map (fun u => [u])).reverse).flatten = s.reverse
  induction s with
  | nil => rfl
  | cons u rest ih =>
    simp only [List.map_cons, List.reverse_cons, List.flatten_append, ih]
    simp

theorem utf16Decode_of_noSurrogate :
    ∀ s : List Nat, (∀ u ∈ s, isHighSurrogate u = false) → utf16Decode s = s
  | [], _ => rfl
  | [u], _ => rfl
  | u :: v :: rest, h => by
    have hu : isHighSurrogate u = false := h u (by simp)
    rw [utf16Decode]
    simp only [hu, Bool.false_and, Bool.false_eq_true, ite_false]
    exact congrArg (List.cons u) (utf16Decode_of_noSurrogate (v :: rest)
      (fun w hw => h w (List.mem_cons_of_mem u hw)))

theorem utf16Encode_of_bmp (s : List Nat) (h : ∀ u ∈ s, u < 65536) :
    utf16Encode s = s := by
  induction s with
  | nil => rfl
  | cons u rest ih =>
    have hu : u < 65536 := h u (by simp)
    simp only [utf16Encode, List.map_cons, List.flatten_cons] at ih ⊢
    rw [utf16EncodeCp, if_pos hu]
    simp only [List.singleton_append]
    exact congrArg (List.cons u) (ih (fun w hw => h w (List.mem_cons_of_mem u hw)))

theorem splitByAux_pred_false (p : Nat → Bool) :
    ∀ l : List Nat, (∀ u ∈ (splitByAux p l).1, p u = false) ∧
      (∀ q ∈ (splitByAux p l).2, ∀ u ∈ q, p u = false)
  | [] => by simp [splitByAux]
  | u :: rest => by
    obtain ⟨ih1, ih2⟩ := splitByAux_pred_false p rest
    by_cases hu : p u = true
    · refine ⟨?_, ?_⟩ <;> simp only [splitByAux, hu, if_pos rfl]
      · simp
      · intro q hq
        rcases List.mem_cons.1 hq with rfl | hq
        · exact ih1
        · exact ih2 q hq
    · have hu' : p u = false := by revert hu; cases p u <;> simp
      refine ⟨?_, ?_⟩ <;> simp only [splitByAux, hu', Bool.false_eq_true, if_neg, ite_false]
      · intro w hw
        rcases List.mem_cons.1 hw with rfl | hw
        · exact hu'
        · exact ih1 w hw
      · exact ih2

theorem joinWith_cons_head (sep : List Nat) (u : Nat) (q : List Nat)
    (ps : List (List Nat)) :
    joinWith sep ((u :: q) :: ps) = u :: joinWith sep (q :: ps) := by
  cases ps with
  | nil => rfl
  | cons r rs => simp [joinWith]

theorem joinWith_splitOnSep (sep : Nat) :
    ∀ l : List Nat, joinWith [sep] (splitOnSep sep l) = l
  | [] => rfl
  | u :: rest => by
    have ih := joinWith_splitOnSep sep rest
    by_cases hu : u = sep
    · subst hu
      simp only [splitOnSep, splitBy, splitByAux, beq_self_eq_true, if_pos rfl]
      show joinWith [u] ([] :: splitBy (fun v => v == u) rest) = u :: rest
      cases h : splitBy (fun v => v == u) rest with
      | nil => exact absurd h (by simp [splitBy])
      | cons q qs =>
        show joinWith [u] ([] :: q :: qs) = u :: rest
        have : joinWith [u] ([] :: q :: qs) = u :: joinWith [u] (q :: qs) := by
          simp [joinWith]
        rw [this]
        rw [show splitOnSep u rest = q :: qs from h] at ih
        rw [ih]
    · simp only [splitOnSep, splitBy, splitByAux, beq_iff_eq, if_neg hu]
      show joinWith [sep]
        ((u :: (splitByAux (fun v => v == sep) rest).1) ::
          (splitByAux (fun v => v == sep) rest).2) = u :: rest
      rw [joinWith_cons_head]
      exact congrArg _ ih

theorem splitByAux_of_pred_false (p : Nat → Bool) :
    ∀ l : List Nat, (∀ u ∈ l, p u = false) → splitByAux p l = (l, [])
  | [], _ => rfl
  | u :: rest, h => by
    have hu : p u = false := h u (by simp)
    simp only [splitByAux, hu, Bool.false_eq_true, ite_false,
      splitByAux_of_pred_false p rest (fun w hw => h w (List.mem_cons_of_mem u hw))]

theorem splitByAux_append_sep (sep : Nat) :
    ∀ (q t : List Nat), (∀ u ∈ q, (u == sep) = false) →
      splitByAux (fun v => v == sep) (q ++ sep :: t) =
        (q, (splitByAux (fun v => v == sep) t).1 ::
            (splitByAux (fun v => v == sep) t).2)
  | [], t, _ => by simp [splitByAux]
  | u :: q, t, h => by
    have hu : (u == sep) = false := h u (by simp)
    have ih := splitByAux_append_sep sep q t
      (fun w hw => h w (List.mem_cons_of_mem u hw))
    show splitByAux (fun v => v == sep) (u :: (q ++ sep :: t)) = _
    simp only [splitByAux, hu, Bool.false_eq_true, ite_false, ih]

theorem splitByAux_append_single (sep : Nat) :
    ∀ m : List Nat, splitByAux (fun v => v == sep) (m ++ [sep]) =
      ((splitByAux (fun v => v == sep) m).1,
       (splitByAux (fun v => v == sep) m).2 ++ [[]])
  | [] => by simp [splitByAux]
  | u :: rest => by
    have ih := splitByAux_append_single sep rest
    show splitByAux (fun v => v == sep) (u :: (rest ++ [sep])) = _
    by_cases hu : (u == sep) = true
    · simp only [splitByAux, hu, ite_true, ih]
      simp
    · simp only [splitByAux, hu, ite_false, ih]
      simp

theorem splitOnSep_joinWith (sep : Nat) :
    ∀ (ps : List (List Nat)) (q : List Nat),
      (∀ piece ∈ q :: ps, ∀ u ∈ piece, (u == sep) = false) →
      splitOnSep sep (joinWith [sep] (q :: ps)) = q :: ps
  | [], q, h => by
    show splitOnSep sep q = [q]
    simp only [splitOnSep, splitBy,
      splitByAux_of_pred_false _ q (h q (by simp))]
  | p :: ps, q, h => by
    show splitOnSep sep (q ++ [sep] ++ joinWith [sep] (p :: ps)) = q :: p :: ps
    have ih := splitOnSep_joinWith sep ps p
      (fun piece hp => h piece (List.mem_cons_of_mem q hp))
    simp only [splitOnSep, splitBy] at ih ⊢
    rw [List.append_assoc, List.singleton_append,
      splitByAux_append_sep sep q _ (h q (by simp))]
    injection ih with h1 h2
    rw [h1, h2]

theorem splitOnSep_append_sep (sep : Nat) (m : List Nat) :
    splitOnSep sep (m ++ [sep]) = splitOnSep sep m ++ [[]] := by
  simp only [splitOnSep, splitBy, splitByAux_append_single]
  simp

theorem joinWith_concat_nil (sep : Nat) :
    ∀ (q : List Nat) (ps : List (List Nat)),
      joinWith [sep] ((q :: ps) ++ [[]]) = joinWith [sep] (q :: ps) ++ [sep]
  | q, [] => by simp [joinWith]
  | q, p :: ps => by
    have ih := joinWith_concat_nil sep p ps
    show q ++ [sep] ++ joinWith [sep] ((p :: ps) ++ [[]]) =
      (q ++ [sep] ++ joinWith [sep] (p :: ps)) ++ [sep]
    rw [ih, List.append_assoc, List.append_assoc, List.append_assoc]

theorem stripTrailing_append_same (x : Nat) (l : List Nat) :
    stripTrailing x (l ++ [x]) = stripTrailing x l := by
  simp [stripTrailing, List.dropWhile]

theorem stripTrailing_of_getLast?_ne (x : Nat) (l : List Nat)
    (h : l.getLast? ≠ some x) : stripTrailing x l = l := by
  rw [stripTrailing]
  cases hr : l.reverse with
  | nil =>
    simp only [List.dropWhile_nil, List.reverse_nil]
    exact (List.reverse_eq_nil_iff.1 hr).symm
  | cons b t =>
    have hb : b ≠ x := by
      intro hbx
      exact h (by rw [← List.head?_reverse, hr, hbx]; rfl)
    rw [List.dropWhile_cons, if_neg (by simp [hb])]
    rw [← hr, List.reverse_reverse]

theorem joinWith_getLast? (sep : Nat) :
    ∀ (ps : List (List Nat)) (q : List Nat),
      ps.getLast? = some q → q ≠ [] →
      (joinWith [sep] ps).getLast? = q.getLast?
  | [], q, h, _ => by simp at h
  | [p], q, h, hq => by
    simp only [List.getLast?_singleton, Option.some_inj] at h
    subst h
    rfl
  | p :: p' :: ps, q, h, hq => by
    have hlast : (p' :: ps).getLast? = some q := by
      rw [← h]; exact (List.getLast?_cons_cons).symm
    have ih := joinWith_getLast? sep (p' :: ps) q hlast hq
    have hne : joinWith [sep] (p' :: ps) ≠ [] := by
      intro he
      have hnone : q.getLast? = none := by rw [← ih, he]; rfl
      exact hq (List.getLast?_eq_none_iff.1 hnone)
    show (p ++ [sep] ++ joinWith [sep] (p' :: ps)).getLast? = q.getLast?
    rw [List.append_assoc, List.getLast?_append_of_ne_nil _ (by
      intro he
      exact hne (List.append_eq_nil.1 he).2)]
    rw [List.getLast?_append_of_ne_nil _ hne]
    exact ih

theorem splitByAux_cons (p : Nat → Bool) (u : Nat) (rest : List Nat) :
    splitByAux p (u :: rest) =
      if p u then ([], (splitByAux p rest).1 :: (splitByAux p rest).2)
      else (u :: (splitByAux p rest).1, (splitByAux p rest).2) := rfl

theorem getLast?_mem_of_eq {α : Type} {l : List α} {a : α}
    (h : l.getLast? = some a) : a ∈ l := by
  obtain ⟨hne, heq⟩ := List.mem_getLast?_eq_getLast (Option.mem_def.2 h)
  rw [heq]
  exact List.getLast_mem hne

theorem splitOnSep_piece_free (sep : Nat) (l : List Nat) (q : List Nat)
    (hq : q ∈ splitOnSep sep l) : ∀ u ∈ q, (u == sep) = false := by
  obtain ⟨h1, h2⟩ := splitByAux_pred_false (fun v => v == sep) l
  rcases List.mem_cons.1 hq with rfl | hq
  · exact h1
  · exact h2 q hq

theorem dockerRev_eq (m : List Nat) (h : isEchoOpt m = false) :
    dockerRev m = stripTrailing 10 (revLines m) := by
  simp only [dockerRev, echoOut, h, Bool.false_eq_true, ite_false]
  rw [splitOnSep_append_sep]
  cases hsp : splitOnSep 10 m with
  | nil => exact absurd hsp (by simp [splitOnSep, splitBy])
  | cons q qs =>
    rw [List.map_append, List.map_cons]
    show stripTrailing 10
      (joinWith [10] ((q.reverse :: qs.map List.reverse) ++ [[]])) = _
    rw [joinWith_concat_nil, stripTrailing_append_same]
    rw [revLines, hsp, List.map_cons]

theorem revLines_involution (m : List Nat) : revLines (revLines m) = m := by
  cases hsp : splitOnSep 10 m with
  | nil => exact absurd hsp (by simp [splitOnSep, splitBy])
  | cons q qs =>
    have hfree : ∀ piece ∈ q.reverse :: qs.map List.reverse,
        ∀ u ∈ piece, (u == 10) = false := by
      intro piece hp u hu
      rcases List.mem_cons.1 hp with rfl | hp
      · exact splitOnSep_piece_free 10 m q (by rw [hsp]; simp) u
          (List.mem_reverse.1 hu)
      · obtain ⟨r, hr, rfl⟩ := List.mem_map.1 hp
        exact splitOnSep_piece_free 10 m r (by rw [hsp]; simp [hr]) u
          (List.mem_reverse.1 hu)
    show joinWith [10] ((splitOnSep 10 (revLines m)).map List.reverse) = m
    rw [revLines, hsp, List.map_cons,
      splitOnSep_joinWith 10 (qs.map List.reverse) q.reverse hfree]
    have : (q.reverse :: qs.map List.reverse).map List.reverse = q :: qs := by
      simp [List.map_map, Function.comp]
    rw [this, ← hsp, joinWith_splitOnSep]

theorem splitOnSep_getLast_piece (sep : Nat) :
    ∀ l : List Nat, l ≠ [] → l.getLast? ≠ some sep →
      ∃ q, (splitOnSep sep l).getLast? = some q ∧ q ≠ []
  | [], h, _ => absurd rfl h
  | [u], _, h => by
    have hu : ¬(u == sep) = true := by
      simp only [beq_iff_eq]
      intro he
      exact h (by rw [he]; rfl)
    refine ⟨[u], ?_, by simp⟩
    simp [splitOnSep, splitBy, splitByAux, hu]
  | u :: v :: rest, _, h => by
    have hlast : (v :: rest).getLast? ≠ some sep := by
      rwa [List.getLast?_cons_cons] at h
    obtain ⟨q, hq, hqne⟩ :=
      splitOnSep_getLast_piece sep (v :: rest) (by simp) hlast
    simp only [splitOnSep, splitBy] at hq ⊢
    rw [splitByAux_cons]
    set a := splitByAux (fun w => w == sep) (v :: rest) with ha
    by_cases hu : (u == sep) = true
    · rw [if_pos hu]
      refine ⟨q, ?_, hqne⟩
      show ([] :: a.1 :: a.2).getLast? = some q
      rw [List.getLast?_cons_cons]
      exact hq
    · rw [if_neg hu]
      cases hq2 : a.2 with
      | nil => exact ⟨u :: a.1, by simp, by simp⟩
      | cons s ss =>
        refine ⟨q, ?_, hqne⟩
        rw [hq2] at hq
        show ((u :: a.1) :: s :: ss).getLast? = some q
        rw [List.getLast?_cons_cons]
        rwa [List.getLast?_cons_cons] at hq

theorem revLines_getLast (m : List Nat) (hne : m ≠ [])
    (hlast : m.getLast? ≠ some 10) : (revLines m).getLast? ≠ some 10 := by
  obtain ⟨q, hq, hqne⟩ := splitOnSep_getLast_piece 10 m hne hlast
  have hmap : ((splitOnSep 10 m).map List.reverse).getLast? = some q.reverse := by
    rw [List.getLast?_map, hq]
    rfl
  have hjoin := joinWith_getLast? 10 ((splitOnSep 10 m).map List.reverse)
    q.reverse hmap (by simp [hqne])
  rw [revLines, hjoin, List.getLast?_reverse]
  cases q with
  | nil => exact absurd rfl hqne
  | cons c cs =>
    have : (c == 10) = false :=
      splitOnSep_piece_free 10 m (c :: cs) (getLast?_mem_of_eq hq) c (by simp)
    simp only [List.head?_cons, ne_eq, Option.some_inj]
    intro hc
    rw [hc] at this
    simp at this

theorem capitalizeWord_cons (u : Nat) (w : List Nat) :
    capitalizeWord (u :: w) = asciiToUpper u :: jsToLowerCase w := rfl

theorem codeTitle_split (s : List Nat) :
    joinWith [32] (capitalizeWord (splitByAux (fun v => v == 32) s).1 ::
        ((splitByAux (fun v => v == 32) s).2.map capitalizeWord)) =
      codeTitleAux true s ∧
    joinWith [32] (jsToLowerCase (splitByAux (fun v => v == 32) s).1 ::
        ((splitByAux (fun v => v == 32) s).2.map capitalizeWord)) =
      codeTitleAux false s := by
  induction s with
  | nil => exact ⟨rfl, rfl⟩
  | cons u rest ih =>
    obtain ⟨ihA, ihB⟩ := ih
    rw [splitByAux_cons]
    set a := splitByAux (fun v => v == 32) rest with ha
    by_cases hu : (u == 32) = true
    · have hu' : u = 32 := by simpa using hu
      rw [if_pos hu]
      subst hu'
      constructor
      · show joinWith [32] ([] :: capitalizeWord a.1 :: (a.2.map capitalizeWord)) =
          codeTitleAux true (32 :: rest)
        show [] ++ [32] ++ joinWith [32] (capitalizeWord a.1 :: (a.2.map capitalizeWord)) = _
        rw [ihA]
        rfl
      · show joinWith [32] ([] :: capitalizeWord a.1 :: (a.2.map capitalizeWord)) =
          codeTitleAux false (32 :: rest)
        show [] ++ [32] ++ joinWith [32] (capitalizeWord a.1 :: (a.2.map capitalizeWord)) = _
        rw [ihA]
        rfl
    · rw [if_neg hu]
      have hu' : ¬u = 32 := by simpa using hu
      constructor
      · show joinWith [32] (capitalizeWord (u :: a.1) :: (a.2.map capitalizeWord)) =
          codeTitleAux true (u :: rest)
        rw [capitalizeWord_cons, joinWith_cons_head, ihB]
        simp only [codeTitleAux, if_neg hu', ite_true]
      · show joinWith [32] (jsToLowerCase (u :: a.1) :: (a.2.map capitalizeWord)) =
          codeTitleAux false (u :: rest)
        show joinWith [32] ((asciiToLower u :: jsToLowerCase a.1) ::
          (a.2.map capitalizeWord)) = _
        rw [joinWith_cons_head, ihB]
        simp only [codeTitleAux, if_neg hu', Bool.false_eq_true, ite_false]

theorem codeTitle_eq_spec (s : List Nat)
    (h : ∀ u ∈ s, isJsWhitespace u = true → u = 32) :
    ∀ b, codeTitleAux b s = specTitleCaseAux b s := by
  induction s with
  | nil => intro b; rfl
  | cons u rest ih =>
    intro b
    have ih' := ih (fun w hw => h w (List.mem_cons_of_mem u hw))
    by_cases hu : u = 32
    · subst hu
      show (32 :: codeTitleAux true rest) = _
      have : isJsWhitespace 32 = true := by decide
      simp only [specTitleCaseAux, this, ite_true, ih']
    · have hws : isJsWhitespace u = false := by
        cases hf : isJsWhitespace u
        · rfl
        · exact absurd (h u (by simp) hf) hu
      simp only [codeTitleAux, if_neg hu, specTitleCaseAux, hws,
        Bool.false_eq_true, ite_false, ih']

theorem dockerDispatch_reverse (x : List Nat) :
    (dockerDispatch x (jsStr ("reverse"))).result = dockerRev x := by
  have h1 : jsStr ("reverse") ≠ jsStr ("echo") := by decide
  simp [dockerDispatch, h1]

/-! ### Claims -/

/-- C1: for every text and every operation name outside the known
operation set, dispatch does not fail: the JavaScript lineage emits its
warning and returns exactly the `analyze` fallback's result, and the
docker lineage emits its warning and returns exactly the `echo`
fallback's result. -/
theorem C1_unknown_operation_falls_back :
    (∀ text op : JSString,
      jsToLowerCase op ∉
        [jsStr ("analyze"), jsStr ("transform"), jsStr ("validate")] →
      (jsDispatch text op).warned = true ∧
      (jsDispatch text op).result =
        (jsDispatch text (jsStr ("analyze"))).result) ∧
    (∀ m p : List Nat, p ∉ dockerKnownOps →
      (dockerDispatch m p).warned = true ∧
      (dockerDispatch m p).result =
        (dockerDispatch m (jsStr ("echo"))).result) := by
  constructor
  · intro text op h
    have h1 : jsToLowerCase op ≠ jsStr ("analyze") := fun e => h (by simp [e])
    have h2 : jsToLowerCase op ≠ jsStr ("transform") := fun e => h (by simp [e])
    have h3 : jsToLowerCase op ≠ jsStr ("validate") := fun e => h (by simp [e])
    simp only [jsDispatch, if_neg h1, if_neg h2, if_neg h3,
      if_pos (show jsToLowerCase (jsStr ("analyze")) = jsStr ("analyze") by decide)]
    exact ⟨by trivial, by trivial⟩
  · intro m p h
    have h1 : p ≠ jsStr ("echo") := fun e => h (by simp [dockerKnownOps, e])
    have h2 : p ≠ jsStr ("reverse") := fun e => h (by simp [dockerKnownOps, e])
    have h3 : p ≠ jsStr ("count") := fun e => h (by simp [dockerKnownOps, e])
    have h4 : p ≠ jsStr ("uppercase") := fun e => h (by simp [dockerKnownOps, e])
    have h5 : p ≠ jsStr ("lowercase") := fun e => h (by simp [dockerKnownOps, e])
    simp only [dockerDispatch, if_neg h1, if_neg h2, if_neg h3, if_neg h4,
      if_neg h5, if_pos rfl]
    exact ⟨by trivial, by trivial⟩

/-- C1 witness at a concrete text and unknown operation name. -/
theorem C1_unknown_operation_falls_back_witness :
    ((jsDispatch (jsStr ("hi")) (jsStr ("no-such-op"))).warned = true ∧
     (jsDispatch (jsStr ("hi")) (jsStr ("no-such-op"))).result =
       (jsDispatch (jsStr ("hi")) (jsStr ("analyze"))).result) ∧
    ((dockerDispatch (jsStr ("hi")) (jsStr ("no-such-op"))).warned = true ∧
     (dockerDispatch (jsStr ("hi")) (jsStr ("no-such-op"))).result =
       (dockerDispatch (jsStr ("hi")) (jsStr ("echo"))).result) :=
  ⟨C1_unknown_operation_falls_back.1 (jsStr ("hi")) (jsStr ("no-such-op"))
      (by decide),
   C1_unknown_operation_falls_back.2 (jsStr ("hi")) (jsStr ("no-such-op"))
      (by decide)⟩

/-- C2: dispatch is total: both embeddings are total structurally
recursive functions (termination by construction), and for every pair of
strings the result is one of the defined operation results — neither
dispatcher has an error outcome. -/
theorem C2_dispatch_total :
    (∀ text op : JSString,
      (jsDispatch text op).result = .analysis (analyzeText text) ∨
      (jsDispatch text op).result = .transformation (transformText text) ∨
      (jsDispatch text op).result = .validation (validateText text)) ∧
    (∀ m p : List Nat,
      (dockerDispatch m p).result = m ∨
      (dockerDispatch m p).result = dockerRev m ∨
      (dockerDispatch m p).result = dockerCount m ∨
      (dockerDispatch m p).result = dockerUpper m ∨
      (dockerDispatch m p).result = dockerLower m) := by
  constructor
  · intro text op
    by_cases h1 : jsToLowerCase op = jsStr ("analyze")
    · left
      simp only [jsDispatch, if_pos h1]
    · by_cases h2 : jsToLowerCase op = jsStr ("transform")
      · right; left
        simp only [jsDispatch, if_neg h1, if_pos h2]
      · by_cases h3 : jsToLowerCase op = jsStr ("validate")
        · right; right
          simp only [jsDispatch, if_neg h1, if_neg h2, if_pos h3]
        · left
          simp only [jsDispatch, if_neg h1, if_neg h2, if_neg h3]
  · intro m p
    by_cases h1 : p = jsStr ("echo")
    · left; simp only [dockerDispatch, if_pos h1]
    · by_cases h2 : p = jsStr ("reverse")
      · right; left; simp only [dockerDispatch, if_neg h1, if_pos h2]
      · by_cases h3 : p = jsStr ("count")
        · right; right; left
          simp only [dockerDispatch, if_neg h1, if_neg h2, if_pos h3]
        · by_cases h4 : p = jsStr ("uppercase")
          · right; right; right; left
            simp only [dockerDispatch, if_neg h1, if_neg h2, if_neg h3,
              if_pos h4]
          · by_cases h5 : p = jsStr ("lowercase")
            · right; right; right; right
              simp only [dockerDispatch, if_neg h1, if_neg h2, if_neg h3,
                if_neg h4, if_pos h5]
            · left
              simp only [dockerDispatch, if_neg h1, if_neg h2, if_neg h3,
                if_neg h4, if_neg h5]

/-- C3 counterexample: at the empty text the claim fails as stated — the
validate result's issues list does not contain the string `"empty"`
(the code pushes the full message `"Text is empty"` instead), even
though the text length is 0. -/
theorem C3_counterexample :
    (jsDispatch [] (jsStr ("validate"))).result = .validation (validateText []) ∧
    ([] : JSString).length = 0 ∧
    jsStr ("empty") ∉ (validateText []).issues := by decide

/-- C3 amended: the membership conditions and the `isValid` biconditional
hold exactly as claimed, but with the code's message strings
`"Text is empty"`, `"Text is too long (>1000 chars)"` and
`"No alphabetic characters found"` in place of the claim's issue codes
`"empty"`, `"too-long"`, `"no-alpha"`. -/
theorem C3_amended_validate_issues :
    ∀ text : JSString,
      (jsDispatch text (jsStr ("validate"))).result =
        .validation (validateText text) ∧
      (msgEmpty ∈ (validateText text).issues ↔ text.length = 0) ∧
      (msgTooLong ∈ (validateText text).issues ↔ 1000 < text.length) ∧
      (msgNoAlpha ∈ (validateText text).issues ↔
        text.any isAsciiAlpha = false) ∧
      ((validateText text).isValid = true ↔ (validateText text).issues = []) := by
  intro text
  have hd12 : msgEmpty ≠ msgTooLong := by decide
  have hd13 : msgEmpty ≠ msgNoAlpha := by decide
  have hd23 : msgTooLong ≠ msgNoAlpha := by decide
  refine ⟨?_, ?_⟩
  · simp only [jsDispatch]
    rw [if_neg (by decide), if_neg (by decide), if_pos (by decide)]
  · by_cases h1 : text.length = 0 <;>
      by_cases h2 : 1000 < text.length <;>
      by_cases h3 : text.any isAsciiAlpha = true <;>
      simp [validateText, h1, h2, h3, hd12, hd13, hd23, hd12.symm,
        hd13.symm, hd23.symm]

/-- C4 counterexample: the docker lineage matches the operation name
case-sensitively — on the message `"ab"`, `"REVERSE"` falls through to
the echo fallback while its lower-casing `"reverse"` reverses, so the
two results differ. -/
theorem C4_counterexample :
    (dockerDispatch (jsStr ("ab")) (jsStr ("REVERSE"))).result ≠
      (dockerDispatch (jsStr ("ab"))
        (jsToLowerCase (jsStr ("REVERSE")))).result := by decide

/-- C4 amended: case-insensitive matching holds in the JavaScript
lineage, where the operation name is lower-cased before the switch, so
an upper- or mixed-case spelling selects the operation; the docker
lineage's `case` statement matches literally, so a non-lower-case
spelling of a known operation falls back to echo with a warning. -/
theorem C4_amended_case_handling :
    (∀ text op : JSString,
      jsDispatch text op = jsDispatch text (jsToLowerCase op)) ∧
    (jsDispatch (jsStr ("hi")) (jsStr ("TRANSFORM"))).result =
      .transformation (transformText (jsStr ("hi"))) ∧
    dockerDispatch (jsStr ("ab")) (jsStr ("REVERSE")) =
      ⟨jsStr ("ab"), true⟩ := by
  refine ⟨?_, by decide, by decide⟩
  intro text op
  simp only [jsDispatch, jsToLowerCase_idem]

/-- C5 counterexample: on the astral character U+1F600, stored as the
surrogate pair `[55357, 56832]`, the code's reversal swaps the two code
units while code-point reversal keeps the pair intact, so the claim's
code-point granularity fails. -/
theorem C5_counterexample :
    (transformText [55357, 56832]).reversed = [56832, 55357] ∧
    codePointReverse [55357, 56832] = [55357, 56832] ∧
    (transformText [55357, 56832]).reversed ≠
      codePointReverse [55357, 56832] := by decide

/-- C5 amended: the reverse operation reverses at UTF-16 code-unit
granularity (`split('')` yields code units); on strings containing no
surrogate code units — all of the Basic Multilingual Plane — this
coincides with code-point reversal, but astral characters are split. -/
theorem C5_amended_codeunit_reversal :
    (∀ s : JSString, (transformText s).reversed = s.reverse) ∧
    (∀ s : JSString, (∀ u ∈ s, u < 65536 ∧ isHighSurrogate u = false) →
      (transformText s).reversed = codePointReverse s) := by
  refine ⟨reversed_eq_reverse, ?_⟩
  intro s h
  rw [reversed_eq_reverse, codePointReverse,
    utf16Decode_of_noSurrogate s (fun u hu => (h u hu).2),
    utf16Encode_of_bmp s.reverse (fun u hu => (h u (List.mem_reverse.1 hu)).1)]

/-- C5 amended witness at a concrete BMP-only string. -/
theorem C5_amended_codeunit_reversal_witness :
    (transformText (jsStr ("ab"))).reversed = (jsStr ("ab")).reverse ∧
    (transformText (jsStr ("ab"))).reversed = codePointReverse (jsStr ("ab")) :=
  ⟨C5_amended_codeunit_reversal.1 (jsStr ("ab")),
   C5_amended_codeunit_reversal.2 (jsStr ("ab")) (by decide)⟩

/-- C6 counterexample: in the docker lineage the involution fails for
the non-empty message `"ab\n"` (`[97, 98, 10]`): command substitution
strips the trailing newline, so reversing twice yields `"ab"`, not the
original message. -/
theorem C6_counterexample :
    [97, 98, 10] ≠ ([] : List Nat) ∧
    (dockerDispatch [97, 98, 10] (jsStr ("reverse"))).result = [98, 97] ∧
    (dockerDispatch
        ((dockerDispatch [97, 98, 10] (jsStr ("reverse"))).result)
        (jsStr ("reverse"))).result = [97, 98] ∧
    (dockerDispatch
        ((dockerDispatch [97, 98, 10] (jsStr ("reverse"))).result)
        (jsStr ("reverse"))).result ≠ [97, 98, 10] := by decide

/-- C6 amended: the JavaScript lineage's `reversed` is an involution on
every non-empty text; the docker lineage's reverse operation is an
involution on every non-empty message that does not end in a newline
(command substitution strips trailing newlines) and that is not — nor
whose reversal is — an `echo` option word (`-` followed by letters from
`neE`, which `bash`'s `echo` consumes). -/
theorem C6_amended_reverse_involution :
    (∀ s : JSString, s ≠ [] →
      (transformText (transformText s).reversed).reversed = s) ∧
    (∀ m : List Nat, m ≠ [] → m.getLast? ≠ some 10 →
      isEchoOpt m = false →
      isEchoOpt ((dockerDispatch m (jsStr ("reverse"))).result) = false →
      (dockerDispatch ((dockerDispatch m (jsStr ("reverse"))).result)
        (jsStr ("reverse"))).result = m) := by
  constructor
  · intro s _
    rw [reversed_eq_reverse, reversed_eq_reverse, List.reverse_reverse]
  · intro m hne hlast hopt hopt2
    rw [dockerDispatch_reverse] at hopt2 ⊢
    rw [dockerDispatch_reverse]
    have h1 : dockerRev m = revLines m := by
      rw [dockerRev_eq m hopt,
        stripTrailing_of_getLast?_ne 10 _ (revLines_getLast m hne hlast)]
    rw [h1] at hopt2 ⊢
    rw [dockerRev_eq _ hopt2, revLines_involution,
      stripTrailing_of_getLast?_ne 10 m hlast]

/-- C6 amended witness at a concrete message. -/
theorem C6_amended_reverse_involution_witness :
    (transformText (transformText (jsStr ("ab"))).reversed).reversed =
      jsStr ("ab") ∧
    (dockerDispatch ((dockerDispatch (jsStr ("ab")) (jsStr ("reverse"))).result)
      (jsStr ("reverse"))).result = jsStr ("ab") :=
  ⟨C6_amended_reverse_involution.1 (jsStr ("ab")) (by decide),
   C6_amended_reverse_involution.2 (jsStr ("ab")) (by decide) (by decide)
     (by decide) (by decide)⟩

/-- C7 counterexample: on `"a\tB"` (`[97, 9, 66]`) the code capitalizes
only space-delimited chunks — `split(' ')` sees one chunk, so the
tab-delimited token `"B"` is lower-cased to `"b"` instead of keeping its
capital, contradicting the whitespace-delimited reading: the code gives
`"A\tb"` while title-casing whitespace-delimited tokens gives
`"A\tB"`. -/
theorem C7_counterexample :
    (jsDispatch [97, 9, 66] (jsStr ("transform"))).result =
      .transformation (transformText [97, 9, 66]) ∧
    (transformText [97, 9, 66]).capitalized = [65, 9, 98] ∧
    specTitleCase [97, 9, 66] = [65, 9, 66] ∧
    (transformText [97, 9, 66]).capitalized ≠ specTitleCase [97, 9, 66] := by
  decide

/-- C7 amended: `capitalized` splits on the space character only,
upper-cases the first code unit of each space-delimited chunk and
lower-cases the rest; on texts whose only whitespace is the space
character this agrees with title-casing each whitespace-delimited token,
and in particular the claim's example `"go Actions go" ↦ "Go Actions
Go"` holds. -/
theorem C7_amended_capitalized :
    (∀ s : JSString, (∀ u ∈ s, isJsWhitespace u = true → u = 32) →
      (transformText s).capitalized = specTitleCase s) ∧
    (jsDispatch (jsStr ("go Actions go")) (jsStr ("transform"))).result =
      .transformation (transformText (jsStr ("go Actions go"))) ∧
    (transformText (jsStr ("go Actions go"))).capitalized =
      jsStr ("Go Actions Go") := by
  refine ⟨?_, by decide, by decide⟩
  intro s h
  show joinWith [32] (capitalizeWord (splitByAux (fun v => v == 32) s).1 ::
    ((splitByAux (fun v => v == 32) s).2.map capitalizeWord)) = specTitleCase s
  rw [(codeTitle_split s).1, specTitleCase, codeTitle_eq_spec s h true]

/-- C7 amended witness at a concrete space-separated text. -/
theorem C7_amended_capitalized_witness :
    (transformText (jsStr ("go go"))).capitalized =
      specTitleCase (jsStr ("go go")) :=
  C7_amended_capitalized.1 (jsStr ("go go")) (by decide)

/-- C8: for every text, `uniqueWords` equals the number of distinct
whitespace-delimited non-empty words compared case-insensitively (the
cardinality of the set of lower-cased words), and on
`"The quick quick fox"` it equals 3. -/
theorem C8_uniqueWords_distinct_count :
    (∀ text : JSString,
      (analyzeText text).uniqueWords =
        ((jsWords text).map jsToLowerCase).toFinset.card) ∧
    (jsDispatch (jsStr ("The quick quick fox")) (jsStr ("analyze"))).result =
      .analysis (analyzeText (jsStr ("The quick quick fox"))) ∧
    (analyzeText (jsStr ("The quick quick fox"))).uniqueWords = 3 := by
  refine ⟨?_, by rfl, by decide⟩
  intro text
  show ((jsWords text).map jsToLowerCase).dedup.length = _
  rw [List.card_toFinset]

/-- C9: `avgWordLength` is 0 when there are no words, and otherwise is a
multiple of `1/100` within half a hundredth of the exact mean word
length — i.e. the mean rounded to 2 decimal places. -/
theorem C9_avgWordLength_rounded_mean :
    ∀ text : JSString,
      ((jsWords text).length = 0 → (analyzeText text).avgWordLength = 0) ∧
      (0 < (jsWords text).length →
        (∃ k : ℤ, (analyzeText text).avgWordLength = (k : ℚ) / 100) ∧
        |(analyzeText text).avgWordLength -
          (((jsWords text).map List.length).sum : ℚ) /
            ((jsWords text).length : ℚ)| ≤ 1 / 200) := by
  intro text
  constructor
  · intro h
    show (if 0 < (jsWords text).length then _ else (0 : ℚ)) = 0
    rw [if_neg (by omega)]
  · intro h
    have havg : (analyzeText text).avgWordLength =
        jsToFixed2 ((((jsWords text).map List.length).sum : ℚ) /
          ((jsWords text).length : ℚ)) := by
      show (if 0 < (jsWords text).length then _ else (0 : ℚ)) = _
      rw [if_pos h]
    set q : ℚ := (((jsWords text).map List.length).sum : ℚ) /
      ((jsWords text).length : ℚ) with hq
    rw [havg, jsToFixed2_eq_floor]
    refine ⟨⟨⌊q * 100 + 1 / 2⌋, rfl⟩, ?_⟩
    have h1 := Int.floor_le (q * 100 + 1 / 2)
    have h2 := Int.lt_floor_add_one (q * 100 + 1 / 2)
    rw [abs_le]
    constructor <;> linarith

/-- C9 witness at a concrete two-word text. -/
theorem C9_avgWordLength_rounded_mean_witness :
    0 < (jsWords (jsStr ("ab cde"))).length ∧
    ((∃ k : ℤ, (analyzeText (jsStr ("ab cde"))).avgWordLength = (k : ℚ) / 100) ∧
     |(analyzeText (jsStr ("ab cde"))).avgWordLength -
       (((jsWords (jsStr ("ab cde"))).map List.length).sum : ℚ) /
         ((jsWords (jsStr ("ab cde"))).length : ℚ)| ≤ 1 / 200) :=
  ⟨by decide,
   (C9_avgWordLength_rounded_mean (jsStr ("ab cde"))).2 (by decide)⟩

/-- C10: the validate result carries a `textLength` field equal to the
length of the input text, in addition to `isValid` and `issues`. -/
theorem C10_validate_textLength_field :
    ∀ text : JSString,
      (jsDispatch text (jsStr ("validate"))).result =
        .validation (validateText text) ∧
      (validateText text).textLength = text.length := by
  intro text
  refine ⟨?_, rfl⟩
  simp only [jsDispatch]
  rw [if_neg (by decide), if_neg (by decide), if_pos (by decide)]

end Verification
